import Mathlib

/-!
Verification of the `almost-yolo-guard` rule engine.

This file is a shallow embedding of the deterministic rule engine
(`EvaluateRules` and its helpers) from the repository's Go source into
Lean 4.  Pure Go functions become Lean functions; Go strings are Lean
`String`s manipulated through their underlying `List Char`; the two
mutually recursive functions `evaluateCommand`/`evaluateSegment` are
embedded with an explicit fuel parameter (the recursion strictly
shrinks the command string, so `command.length + 1` fuel is always
enough at the entry point).  JSON decoding of `tool_input` is modelled
by an association list of keys to a minimal JSON value type.

`HOME` (read by `os.Getenv` in the source) is threaded as an explicit
`home : String` parameter; the empty string models an unset variable.
Paths use the Unix separator, matching the deployment target of the
source.
-/

namespace YoloGuard

/-- Source `Verdict` (protocol file): a Go `int` whose constants are
declared with `iota`, so `VerdictAllow = 0`, `VerdictAsk = 1`,
`VerdictUncertain = 2`. -/
inductive Verdict
  | allow
  | ask
  | uncertain
deriving DecidableEq, Repr

/-- The integer value the source's `iota` declaration assigns to each
constant: `VerdictAllow = 0`, `VerdictAsk = 1`, `VerdictUncertain = 2`.
The rules engine compares verdicts with `>` on these values. -/
def Verdict.toNat : Verdict → Nat
  | .allow => 0
  | .ask => 1
  | .uncertain => 2

/-- Source `Verdict.String`. -/
def Verdict.toString : Verdict → String
  | .allow => "ALLOW"
  | .ask => "ASK"
  | .uncertain => "UNCERTAIN"

/-- Maximum of two verdicts under the source's integer ordering. -/
def Verdict.max (a b : Verdict) : Verdict :=
  if a.toNat < b.toNat then b else a

/-! ### Go `strings` and `unicode` helpers -/

/-- Go's `unicode.IsSpace`: the Unicode white-space code points. -/
def goIsSpace (c : Char) : Bool :=
  c.val == 0x20 || (0x09 ≤ c.val && c.val ≤ 0x0D) ||
  c.val == 0x85 || c.val == 0xA0 || c.val == 0x1680 ||
  (0x2000 ≤ c.val && c.val ≤ 0x200A) ||
  c.val == 0x2028 || c.val == 0x2029 || c.val == 0x202F ||
  c.val == 0x205F || c.val == 0x3000

/-- Drop leading white space from a character list. -/
def dropLeadingSpace : List Char → List Char
  | [] => []
  | c :: cs => if goIsSpace c then dropLeadingSpace cs else c :: cs

/-- Go `strings.TrimSpace` on the character list. -/
def trimSpaceList (cs : List Char) : List Char :=
  ((dropLeadingSpace ((dropLeadingSpace cs).reverse)).reverse)

/-- Go `strings.TrimSpace`. -/
def trimSpace (s : String) : String := ⟨trimSpaceList s.data⟩

/-- Worker for Go `strings.Fields`: `acc` is the current word reversed. -/
def fieldsAux : List Char → List Char → List (List Char)
  | [], acc => if acc.isEmpty then [] else [acc.reverse]
  | c :: cs, acc =>
    if goIsSpace c then
      if acc.isEmpty then fieldsAux cs [] else acc.reverse :: fieldsAux cs []
    else fieldsAux cs (c :: acc)

/-- Go `strings.Fields`: split around runs of white space. -/
def fields (s : String) : List String := (fieldsAux s.data []).map (⟨·⟩)

/-- Substring test on character lists (Go `strings.Contains`). -/
def containsList (s sub : List Char) : Bool :=
  sub.isPrefixOf s ||
    match s with
    | [] => false
    | _ :: rest => containsList rest sub

/-- Go `strings.Contains`. -/
def goContains (s sub : String) : Bool := containsList s.data sub.data

/-- Go `strings.HasPrefix`. -/
def goStartsWith (s p : String) : Bool := p.data.isPrefixOf s.data

/-- Go `strings.HasSuffix`. -/
def goEndsWith (s p : String) : Bool := p.data.isSuffixOf s.data

/-- Go `strings.ToLower` (ASCII letters; the arguments the classifier
compares against are all ASCII). -/
def goToLower (s : String) : String := ⟨s.data.map Char.toLower⟩

/-- Go `strings.ToUpper` (ASCII letters). -/
def goToUpper (s : String) : String := ⟨s.data.map Char.toUpper⟩

/-- Go `strings.Join(args, " ")`. -/
def joinSpace : List String → String
  | [] => ""
  | [s] => s
  | s :: rest => s ++ " " ++ joinSpace rest

/-! ### Go `path/filepath` helpers (Unix rules) -/

/-- Split a character list on `/`. -/
def splitOnSlash : List Char → List Char → List (List Char)
  | [], acc => [acc.reverse]
  | c :: cs, acc =>
    if c = '/' then acc.reverse :: splitOnSlash cs []
    else splitOnSlash cs (c :: acc)

/-- Process path components for `filepath.Clean`; `stack` holds the
retained components most-recent first. -/
def cleanComps (rooted : Bool) : List (List Char) → List (List Char) → List (List Char)
  | [], stack => stack.reverse
  | c :: rest, stack =>
    if c = [] ∨ c = ['.'] then cleanComps rooted rest stack
    else if c = ['.', '.'] then
      match stack with
      | top :: more =>
        if top = ['.', '.'] then cleanComps rooted rest (c :: top :: more)
        else cleanComps rooted rest more
      | [] =>
        if rooted then cleanComps rooted rest []
        else cleanComps rooted rest [c]
    else cleanComps rooted rest (c :: stack)

/-- Interleave `/` between components. -/
def interSlash : List (List Char) → List Char
  | [] => []
  | [c] => c
  | c :: rest => c ++ '/' :: interSlash rest

/-- Go `filepath.Clean` for Unix paths: collapse multiple separators,
eliminate `.` and `..` elements lexically. -/
def filepathClean (s : String) : String :=
  if s = "" then "."
  else
    let cs := s.data
    let rooted := cs.head? = some '/'
    let body := interSlash (cleanComps rooted (splitOnSlash cs []) [])
    if rooted then
      if body = [] then "/" else ⟨'/' :: body⟩
    else
      if body = [] then "." else ⟨body⟩

/-- Go `filepath.IsAbs` for Unix. -/
def filepathIsAbs (s : String) : Bool := goStartsWith s "/"

/-- The portion of a path after its last `/`, ignoring trailing `/`s. -/
def afterLastSlash (cs : List Char) : List Char :=
  ((cs.reverse).takeWhile (· ≠ '/')).reverse

/-- Drop trailing `/` characters. -/
def dropTrailingSlashes (cs : List Char) : List Char :=
  ((cs.reverse).dropWhile (· = '/')).reverse

/-- Go `filepath.Base` for Unix. -/
def filepathBase (s : String) : String :=
  if s = "" then "."
  else
    let cs := dropTrailingSlashes s.data
    if cs = [] then "/" else ⟨afterLastSlash cs⟩

/-- Go `filepath.Join` on two elements: empty elements are dropped and
the result is `Clean`ed; all-empty input yields the empty string. -/
def filepathJoin (a b : String) : String :=
  if a = "" then
    if b = "" then "" else filepathClean b
  else
    if b = "" then filepathClean a
    else filepathClean (a ++ "/" ++ b)

/-! ### Path classifiers -/

/-- Source `isWithinDir`: the cleaned path equals the cleaned directory
or starts with it followed by the separator. -/
def isWithinDir (path dir : String) : Bool :=
  if dir = "" then false
  else
    let p := filepathClean path
    let d := filepathClean dir
    p = d || goStartsWith p (d ++ "/")

/-- The system directory roots checked first by `isSystemPath`. -/
def systemPrefixes : List String :=
  ["/etc", "/usr", "/var", "/sys", "/proc", "/boot", "/sbin"]

/-- The cleaned path equals a system directory root or lies strictly
within one (separator-aware). -/
def systemPrefixHit (path : String) : Bool :=
  systemPrefixes.any (fun p =>
    filepathClean path = p || goStartsWith (filepathClean path) (p ++ "/"))

/-- Source `isSystemPath`; `home` models `os.Getenv("HOME")`, the empty
string meaning unset. -/
def isSystemPath (home path0 : String) : Bool :=
  let path := filepathClean path0
  if systemPrefixes.any (fun p => path = p || goStartsWith path (p ++ "/")) then true
  else if home = "" then false
  else if [filepathJoin home ".bashrc",
           filepathJoin home ".bash_profile",
           filepathJoin home ".zshrc",
           filepathJoin home ".zprofile",
           filepathJoin home ".profile"].any (fun sp => path = sp) then true
  else
    [filepathJoin home ".ssh",
     filepathJoin home ".gnupg",
     filepathJoin home ".aws"].any (fun sd => path = sd || goStartsWith path (sd ++ "/"))

/-! ### Compound-command splitter (`splitCompoundCommand`) -/

/-- Character-by-character walk of the source's `splitCompoundCommand`
loop: `inS` and `inD` are the quote states (single and double) and
`cur` is the current segment accumulated so far.  The source consumes
the two-character operators `&&` and `||` with an index lookahead; here
they are the first two patterns, applicable exactly when both quote
states are off — inside a quote, or for a lone `&`, the general arm
reproduces the loop's appending behavior. -/
def splitCCAux : List Char → Bool → Bool → List Char → List String
  | [], _, _, cur => if cur.isEmpty then [] else [⟨cur⟩]
  | '&' :: '&' :: rest, false, false, cur => ⟨cur⟩ :: splitCCAux rest false false []
  | '|' :: '|' :: rest, false, false, cur => ⟨cur⟩ :: splitCCAux rest false false []
  | c :: cs, inS, inD, cur =>
    if c = '\'' && !inD then splitCCAux cs (!inS) inD (cur ++ [c])
    else if c = '"' && !inS then splitCCAux cs inS (!inD) (cur ++ [c])
    else if inS || inD then splitCCAux cs inS inD (cur ++ [c])
    else if c = '|' then ⟨cur⟩ :: splitCCAux cs inS inD []
    else if c = ';' then ⟨cur⟩ :: splitCCAux cs inS inD []
    else splitCCAux cs inS inD (cur ++ [c])

/-- Source `splitCompoundCommand`: split on `&&`, `||`, `;` and single
`|` while respecting quotes. -/
def splitCompoundCommand (command : String) : List String :=
  splitCCAux command.data false false []

/-! ### Base command and argument extraction -/

/-- A word is a leading environment assignment if it contains `=` and
does not start with `-`, `/` or `.` (source `extractBaseCommand` loop
condition, negated). -/
def isAssignWord (w : String) : Bool :=
  goContains w "=" && !goStartsWith w "-" && !goStartsWith w "/" && !goStartsWith w "."

/-- Drop leading assignment words; `none` when every word is an
assignment (the source returns `""`/`nil` in that case). -/
def dropAssignWords : List String → Option (List String)
  | [] => none
  | w :: ws => if isAssignWord w then dropAssignWords ws else some (w :: ws)

/-- After an `env` word, skip further `NAME=value` words; the next word
is the real command (source's `env` branch in `extractBaseCommand`). -/
def envRealCommand : List String → Option String
  | [] => none
  | w :: ws => if goContains w "=" then envRealCommand ws else some w

/-- After an `env` word, the arguments following the real command
(source's `env` branch in `extractArgs`). -/
def argsAfterEnv : List String → List String
  | [] => []
  | w :: ws => if goContains w "=" then argsAfterEnv ws else ws

/-- Source `extractBaseCommand`: first command word, stripping env-var
assignment words, the `env` wrapper, and leading path components. -/
def extractBaseCommand (segment : String) : String :=
  match dropAssignWords (fields segment) with
  | none => ""
  | some [] => ""
  | some (w :: ws) =>
    if w = "env" then
      match envRealCommand ws with
      | some x => filepathBase x
      | none => ""
    else filepathBase w

/-- Source `extractArgs`: everything after the base command. -/
def extractArgs (segment : String) : List String :=
  match dropAssignWords (fields segment) with
  | none => []
  | some [] => []
  | some (w :: ws) => if w = "env" then argsAfterEnv ws else ws

/-- The interpreters recognised by the pipe-to-shell check. -/
def shellInterpreters : List String :=
  ["bash", "sh", "zsh", "fish", "python", "python3", "perl", "ruby", "node"]

/-- Source `isPipeToShell`. -/
def isPipeToShell (segment : String) : Bool :=
  shellInterpreters.contains (extractBaseCommand (trimSpace segment))

/-! ### Policy tables -/

/-- Source `alwaysSafeCommands`. -/
def alwaysSafeCommands : List String :=
  ["cat", "head", "tail", "less", "more",
   "file", "stat", "wc", "od", "xxd", "strings",
   "ls", "tree", "locate", "du", "df",
   "grep", "rg", "ag", "ack", "fzf",
   "awk", "cut", "sort", "uniq", "tr",
   "diff", "comm", "jq", "yq",
   "whoami", "id", "groups", "hostname", "uname",
   "date", "uptime", "which", "type", "where",
   "env", "printenv", "echo", "printf", "pwd",
   "realpath", "dirname", "basename", "true", "false",
   "test", "[",
   "ping", "dig", "nslookup", "host",
   "ps", "top", "htop", "pgrep", "lsof",
   "tar", "zip", "unzip", "gzip", "gunzip",
   "open", "pbcopy", "pbpaste",
   "tmux", "screen",
   "make", "cmake", "bazel",
   "sleep", "seq",
   "pre-commit", "prettier", "eslint", "golangci-lint",
   "tsc", "jest", "pytest", "phpunit",
   "kustomize",
   "asdf",
   "access-gke"]

/-- Source `alwaysAskCommands`. -/
def alwaysAskCommands : List String :=
  ["sudo", "eval", "dd", "systemctl", "launchctl"]

/-! ### Per-command sub-policies -/

/-- Source `evaluateGit`'s safe subcommand set. -/
def gitSafeSubcmds : List String :=
  ["status", "diff", "log", "show",
   "branch", "fetch", "stash", "add",
   "commit", "pull", "clone", "checkout",
   "rebase", "merge", "cherry-pick", "tag",
   "remote", "reflog", "rev-parse", "ls-files",
   "config", "init", "worktree", "bisect",
   "blame", "shortlog", "describe", "clean",
   "reset", "switch", "restore"]

/-- A `git push` argument that sets the force flag. -/
def isForceArg (a : String) : Bool :=
  a = "--force" || a = "-f" || a = "--force-with-lease"

/-- A `git push` argument that sets the delete flag. -/
def isDeleteArg (a : String) : Bool :=
  a = "--delete" || a = "-d"

/-- The positional (non-flag) arguments of `git push`. -/
def pushPositionals (args : List String) : List String :=
  args.filter (fun a => !goStartsWith a "-")

/-- A positional argument that refers to `main`/`master`
(case-insensitive, also as the remote side of a refspec). -/
def refersToMainBranch (a : String) : Bool :=
  let lower := goToLower a
  lower = "main" || lower = "master" ||
    goEndsWith lower ":main" || goEndsWith lower ":master"

/-- Source `evaluateGitPush`. -/
def evaluateGitPush (args : List String) : Verdict × String :=
  let isForce := args.any isForceArg
  let isDelete := args.any isDeleteArg
  let positionalArgs := pushPositionals args
  if !isForce && !isDelete then (.allow, "git push (no force)")
  else
    match positionalArgs.find? refersToMainBranch with
    | some arg =>
      if isForce then (.ask, "git push --force to " ++ arg)
      else (.ask, "git push --delete " ++ arg)
    | none =>
      if positionalArgs.length ≥ 2 then (.allow, "git push to non-main branch")
      else if isForce then (.uncertain, "git push --force without explicit branch")
      else (.uncertain, "git push --delete without explicit target")

/-- Source `evaluateGit`. -/
def evaluateGit (args : List String) : Verdict × String :=
  match args with
  | [] => (.allow, "git (no subcommand)")
  | subCmd :: rest =>
    if gitSafeSubcmds.contains subCmd then (.allow, "git " ++ subCmd)
    else if subCmd = "push" then evaluateGitPush rest
    else (.uncertain, "git " ++ subCmd)

/-- Source `evaluateKubectlDelete`. -/
def evaluateKubectlDelete (args : List String) : Verdict × String :=
  if args.any (fun a => a = "pod" || a = "pods" || a = "po") then
    (.allow, "kubectl delete pod")
  else (.ask, "kubectl delete (non-pod resource)")

/-- Source `evaluateKubectl`. -/
def evaluateKubectl (args : List String) : Verdict × String :=
  match args with
  | [] => (.allow, "kubectl (no subcommand)")
  | subCmd :: rest =>
    if ["get", "describe", "logs", "top",
        "explain", "api-resources", "api-versions",
        "config", "cluster-info", "version",
        "auth", "port-forward"].contains subCmd then
      (.allow, "kubectl " ++ subCmd)
    else if subCmd = "delete" then evaluateKubectlDelete rest
    else if ["apply", "create", "replace", "patch",
             "edit", "scale", "rollout", "exec",
             "cp", "run", "expose",
             "set", "label", "annotate", "taint",
             "cordon", "uncordon", "drain"].contains subCmd then
      (.ask, "kubectl " ++ subCmd)
    else (.uncertain, "kubectl " ++ subCmd)

/-- `rm` has a recursion flag: any dash argument containing `r` or `R`. -/
def rmHasRecursive (args : List String) : Bool :=
  args.any (fun a => goStartsWith a "-" && (goContains a "r" || goContains a "R"))

/-- The non-flag arguments of an `rm` segment. -/
def rmTargets (args : List String) : List String :=
  args.filter (fun a => !goStartsWith a "-")

/-- Absolute, `Clean`-normalized form of an `rm` target. -/
def rmAbsTarget (workDir t : String) : String :=
  filepathClean (if filepathIsAbs t then t else filepathJoin workDir t)

/-- The dangerous root paths checked by `evaluateRm`; the home
directory is included only when `HOME` is set. -/
def rmDangerousPaths (home : String) : List String :=
  ["/", "/etc", "/usr", "/var", "/home", "/Users"] ++
    (if home = "" then [] else [home])

/-- The per-target loop of source `evaluateRm`. -/
def evaluateRmLoop (home workDir : String) (hasRecursive : Bool) :
    List String → Verdict × String
  | [] => (.allow, "rm within project")
  | target :: rest =>
    let absTarget := rmAbsTarget workDir target
    if (rmDangerousPaths home).any (fun dp => absTarget = dp) then
      (.ask, "rm targeting dangerous path: " ++ target)
    else if hasRecursive && goContains target ".." then
      (.ask, "rm -r with parent traversal: " ++ target)
    else if hasRecursive && workDir ≠ "" && !isWithinDir absTarget workDir then
      (.ask, "rm -r outside project: " ++ target)
    else evaluateRmLoop home workDir hasRecursive rest

/-- Source `evaluateRm`. -/
def evaluateRm (home : String) (args : List String) (workDir : String) : Verdict × String :=
  let targets := rmTargets args
  if targets.isEmpty then (.allow, "rm with no targets")
  else evaluateRmLoop home workDir (rmHasRecursive args) targets

/-- A chmod argument requesting world-writable permissions
(source condition `arg == "777" || arg == "a+rwx"`). -/
def isChmodMode (a : String) : Bool := a = "777" || a = "a+rwx"

/-- A chmod recursion flag
(source condition `arg == "-R" || arg == "--recursive"`). -/
def isChmodRecFlag (a : String) : Bool := a = "-R" || a = "--recursive"

/-- The loop of source `evaluateChmod`: `hasRecursive` accumulates the
flags seen so far, and the verdict is decided at the first `777`/`a+rwx`
argument. -/
def evaluateChmodLoop : Bool → List String → Verdict × String
  | _, [] => (.allow, "chmod")
  | hasRecursive, a :: rest =>
    let hasRecursive := hasRecursive || isChmodRecFlag a
    if isChmodMode a then
      if hasRecursive then (.ask, "chmod -R 777") else (.uncertain, "chmod 777")
    else evaluateChmodLoop hasRecursive rest

/-- Source `evaluateChmod`. -/
def evaluateChmod (args : List String) : Verdict × String :=
  evaluateChmodLoop false args

/-- Source `evaluateChown`. -/
def evaluateChown (args : List String) : Verdict × String :=
  if args.any (fun a => a = "-R" || a = "--recursive") then
    (.uncertain, "chown -R")
  else (.allow, "chown")

/-- Source `evaluateGhSub`. -/
def evaluateGhSub (parent : String) (args : List String) (safeCmds : List String) :
    Verdict × String :=
  match args with
  | [] => (.allow, "gh " ++ parent)
  | a :: _ =>
    if safeCmds.contains a then (.allow, "gh " ++ parent ++ " " ++ a)
    else (.uncertain, "gh " ++ parent ++ " " ++ a)

/-- Source `evaluateGhRepo`. -/
def evaluateGhRepo (args : List String) : Verdict × String :=
  match args with
  | [] => (.allow, "gh repo")
  | a :: _ =>
    if ["view", "clone", "fork", "list"].contains a then (.allow, "gh repo " ++ a)
    else if a = "delete" then (.ask, "gh repo delete")
    else (.uncertain, "gh repo " ++ a)

/-- Source `evaluateGh`. -/
def evaluateGh (args : List String) : Verdict × String :=
  match args with
  | [] => (.uncertain, "gh (no subcommand)")
  | a :: rest =>
    if a = "pr" then
      evaluateGhSub a rest
        ["view", "list", "create", "checks",
         "diff", "ready", "comment", "checkout", "status"]
    else if a = "issue" then
      evaluateGhSub a rest ["view", "list", "create", "comment", "status"]
    else if a = "run" then
      evaluateGhSub a rest ["view", "list", "watch", "download"]
    else if a = "repo" then evaluateGhRepo rest
    else if a = "api" || a = "auth" then (.allow, "gh " ++ a)
    else (.uncertain, "gh " ++ a)

/-- The verb scan of source `evaluateGcloud`. -/
def evaluateGcloudLoop : List String → Verdict × String
  | [] => (.uncertain, "gcloud command")
  | a :: rest =>
    if a = "list" || a = "describe" || a = "info" || a = "get-iam-policy" then
      (.allow, "gcloud read operation")
    else if a = "create" || a = "delete" || a = "update" || a = "deploy" ||
            a = "ssh" || a = "set-iam-policy" || a = "add-iam-policy-binding" ||
            a = "remove-iam-policy-binding" then
      (.ask, "gcloud write operation: " ++ a)
    else evaluateGcloudLoop rest

/-- Source `evaluateGcloud`. -/
def evaluateGcloud (args : List String) : Verdict × String :=
  match args with
  | [] => (.uncertain, "gcloud (no args)")
  | a :: rest =>
    if a = "config" then
      match rest with
      | b :: _ =>
        if b = "list" || b = "get-value" then (.allow, "gcloud config read")
        else (.uncertain, "gcloud config")
      | [] => (.uncertain, "gcloud config")
    else evaluateGcloudLoop (a :: rest)

/-- The SQL keywords that make a `bq query` a write query. -/
def bqWriteKeywords : List String :=
  ["INSERT", "UPDATE", "DELETE", "DROP", "CREATE", "ALTER", "TRUNCATE"]

/-- The arg scan of source `evaluateBq`; `full` is the complete
argument list used to reassemble the query text. -/
def evaluateBqLoop (full : List String) : List String → Verdict × String
  | [] => (.uncertain, "bq command")
  | a :: rest =>
    if a = "ls" || a = "show" || a = "head" then (.allow, "bq read operation")
    else if a = "query" then
      let fullCmd := goToUpper (joinSpace full)
      match bqWriteKeywords.find? (fun kw => goContains fullCmd kw) with
      | some kw => (.ask, "bq write query: " ++ kw)
      | none => (.allow, "bq query (SELECT)")
    else evaluateBqLoop full rest

/-- Source `evaluateBq`. -/
def evaluateBq (args : List String) : Verdict × String :=
  evaluateBqLoop args args

/-- Source `evaluateAws`. -/
def evaluateAws : List String → Verdict × String
  | [] => (.uncertain, "aws command")
  | a :: rest =>
    if goStartsWith a "describe-" || goStartsWith a "list-" || goStartsWith a "get-" then
      (.allow, "aws read operation")
    else if goStartsWith a "create-" || goStartsWith a "delete-" ||
            goStartsWith a "update-" || goStartsWith a "put-" ||
            goStartsWith a "run-" then
      (.ask, "aws write operation: " ++ a)
    else evaluateAws rest

/-- Source `evaluateSed`. -/
def evaluateSed : List String → Verdict × String
  | [] => (.allow, "sed (read-only)")
  | a :: rest =>
    if a = "-i" || a = "--in-place" ||
        (goStartsWith a "-" && goContains a "i" && !goStartsWith a "--") then
      (.uncertain, "sed with in-place edit")
    else evaluateSed rest

/-- Source `evaluateFileCmd` (for `cp`, `mv`, `mkdir`, `touch`). -/
def evaluateFileCmd (home cmd : String) (args : List String) (workDir : String) :
    Verdict × String :=
  match (args.filter (fun a => !goStartsWith a "-")).find?
      (fun a => isSystemPath home (if filepathIsAbs a then a else filepathJoin workDir a)) with
  | some a => (.ask, cmd ++ " targeting system path: " ++ a)
  | none => (.allow, cmd ++ " (safe)")

/-- The ssh flags that consume a following value argument. -/
def sshFlagsWithValue : List String :=
  ["-b", "-c", "-D", "-E", "-e",
   "-F", "-I", "-i", "-J", "-L",
   "-l", "-m", "-O", "-o", "-p",
   "-Q", "-R", "-S", "-W", "-w"]

/-- The loop of source `evaluateSSH`: count positional arguments,
skipping value-taking flags together with their value. -/
def evaluateSSHLoop : Nat → Bool → List String → Verdict × String
  | _, _, [] => (.allow, "ssh (interactive)")
  | count, skipNext, a :: rest =>
    if skipNext then evaluateSSHLoop count false rest
    else if sshFlagsWithValue.contains a then evaluateSSHLoop count true rest
    else if goStartsWith a "-" then evaluateSSHLoop count false rest
    else if count + 1 > 1 then (.uncertain, "ssh with remote command")
    else evaluateSSHLoop (count + 1) false rest

/-- Source `evaluateSSH`. -/
def evaluateSSH (args : List String) : Verdict × String :=
  evaluateSSHLoop 0 false args

/-- Source `evaluateDockerCompose`. -/
def evaluateDockerCompose (args : List String) : Verdict × String :=
  match args with
  | [] => (.allow, "docker-compose (no subcommand)")
  | subCmd :: _ =>
    if ["up", "build", "pull", "start",
        "ps", "logs", "config", "images",
        "top", "version", "ls", "port",
        "create", "events"].contains subCmd then
      (.allow, "docker-compose " ++ subCmd)
    else (.uncertain, "docker-compose " ++ subCmd)

/-- Source `evaluateDocker`. -/
def evaluateDocker (args : List String) : Verdict × String :=
  match args with
  | [] => (.allow, "docker (no subcommand)")
  | subCmd :: rest =>
    if subCmd = "compose" then evaluateDockerCompose rest
    else if ["ps", "logs", "images", "inspect",
             "stats", "top", "history", "info",
             "version", "build", "pull", "tag",
             "login", "logout", "search",
             "events", "diff", "port", "wait",
             "cp", "create", "start"].contains subCmd then
      (.allow, "docker " ++ subCmd)
    else (.uncertain, "docker " ++ subCmd)

/-- Source `evaluateNodePkgMgr` (for `npm`, `yarn`, `pnpm`). -/
def evaluateNodePkgMgr (cmd : String) (args : List String) : Verdict × String :=
  match args with
  | [] => (.allow, cmd ++ " (no subcommand)")
  | subCmd :: _ =>
    if ["install", "i", "ci", "add",
        "remove", "uninstall", "rm",
        "test", "t", "run", "start",
        "build", "dev", "lint", "format",
        "update", "upgrade", "outdated",
        "list", "ls", "info", "view",
        "init", "create", "exec",
        "audit", "cache", "config",
        "pack", "version", "why",
        "dedupe", "prune", "rebuild",
        "link", "unlink"].contains subCmd then
      (.allow, cmd ++ " " ++ subCmd)
    else if subCmd = "publish" then (.ask, cmd ++ " publish")
    else (.uncertain, cmd ++ " " ++ subCmd)

/-- Source `evaluatePip` (for `pip`, `pip3`). -/
def evaluatePip (cmd : String) (args : List String) : Verdict × String :=
  match args with
  | [] => (.allow, cmd ++ " (no subcommand)")
  | subCmd :: _ =>
    if ["install", "uninstall",
        "list", "show", "freeze",
        "check", "config", "cache",
        "debug", "inspect", "download",
        "wheel", "hash", "search",
        "index"].contains subCmd then
      (.allow, cmd ++ " " ++ subCmd)
    else (.uncertain, cmd ++ " " ++ subCmd)

/-- Source `evaluateRuntime` (for `python`, `node`, `deno`, `bun`,
`ruby`, `swift`). -/
def evaluateRuntime (cmd : String) (args : List String) : Verdict × String :=
  match args with
  | [] => (.allow, cmd ++ " (REPL)")
  | _ :: _ =>
    if args.any (fun a => a = "-c" || a = "-e" || a = "--eval") then
      (.uncertain, cmd ++ " with inline code")
    else (.allow, cmd ++ " (script)")

/-- Source `evaluateGo`. -/
def evaluateGo (args : List String) : Verdict × String :=
  match args with
  | [] => (.allow, "go (no subcommand)")
  | subCmd :: _ =>
    if ["build", "test", "vet", "fmt",
        "mod", "generate", "install", "get",
        "clean", "env", "version", "doc",
        "tool", "work", "run", "fix",
        "list"].contains subCmd then
      (.allow, "go " ++ subCmd)
    else (.uncertain, "go " ++ subCmd)

/-- Source `evaluateCargo`. -/
def evaluateCargo (args : List String) : Verdict × String :=
  match args with
  | [] => (.allow, "cargo (no subcommand)")
  | subCmd :: _ =>
    if ["build", "test", "check", "clippy",
        "fmt", "doc", "clean", "update",
        "bench", "run", "new", "init",
        "add", "remove", "install", "search",
        "tree", "vendor", "fix", "fetch",
        "metadata", "verify-project"].contains subCmd then
      (.allow, "cargo " ++ subCmd)
    else if subCmd = "publish" then (.ask, "cargo publish")
    else (.uncertain, "cargo " ++ subCmd)

/-- Source `evaluateHelm`. -/
def evaluateHelm (args : List String) : Verdict × String :=
  match args with
  | [] => (.allow, "helm (no subcommand)")
  | subCmd :: _ =>
    if ["list", "ls", "get", "status",
        "show", "template", "lint", "version",
        "repo", "search", "history", "env",
        "dependency", "plugin", "verify",
        "pull", "package", "create"].contains subCmd then
      (.allow, "helm " ++ subCmd)
    else if ["install", "upgrade", "uninstall",
             "delete", "rollback", "test"].contains subCmd then
      (.ask, "helm " ++ subCmd)
    else (.uncertain, "helm " ++ subCmd)

/-- Source `evaluateFind`. -/
def evaluateFind (args : List String) : Verdict × String :=
  match args.find? (fun a =>
      a = "-exec" || a = "-execdir" || a = "-delete" || a = "-ok" || a = "-okdir") with
  | some a => (.uncertain, "find with " ++ a)
  | none => (.allow, "find (read-only)")

/-- One step of the source `evaluateTee` loop over a non-flag argument. -/
def teeArgVerdict (home workDir a : String) : Option (Verdict × String) :=
  let absPath := filepathClean (if filepathIsAbs a then a else filepathJoin workDir a)
  if isSystemPath home absPath then some (.ask, "tee to system path: " ++ a)
  else if workDir ≠ "" && !isWithinDir absPath workDir then
    some (.uncertain, "tee outside project: " ++ a)
  else none

/-- Source `evaluateTee`. -/
def evaluateTee (home : String) (args : List String) (workDir : String) :
    Verdict × String :=
  match (args.filter (fun a => !goStartsWith a "-")).findSome?
      (teeArgVerdict home workDir) with
  | some vr => vr
  | none => (.allow, "tee within project")

/-- The flag/duration stripping of source `evaluateTimeout`: skip
leading dash flags and one duration argument; `none` when no command
remains. -/
def timeoutRest (args : List String) : Option (List String) :=
  match args.dropWhile (fun a => goStartsWith a "-") with
  | [] => none
  | _ :: rest => if rest.isEmpty then none else some rest

/-- Source `evaluatePackageManager` (for `brew`, `apt`, `apt-get`,
`yum`, `pacman`). -/
def evaluatePackageManager (cmd : String) (args : List String) : Verdict × String :=
  match args with
  | [] => (.allow, cmd ++ " (no subcommand)")
  | subCmd :: _ =>
    if ["install", "add", "update",
        "upgrade", "search", "info",
        "show", "list", "outdated",
        "deps", "leaves", "uses",
        "doctor", "cleanup", "autoremove",
        "cache", "config", "tap",
        "untap"].contains subCmd then
      (.allow, cmd ++ " " ++ subCmd)
    else (.uncertain, cmd ++ " " ++ subCmd)

/-! ### The segment loop and the two mutually recursive evaluators

The Go source's `evaluateCommand` and `evaluateSegment` recurse into
each other through the `nohup`, `time` and `timeout` wrappers; each
round trip strictly shrinks the command string, so the embedding uses
an explicit fuel that the entry point sets to `command.length + 1`. -/

/-- The segment loop of source `evaluateCommand`: `i` is the index of
the head segment in the original segment list and `worst` the running
worst verdict with its reason. -/
def combineSegments (evalSeg : String → Verdict × String) :
    List String → Nat → Verdict × String → Verdict × String
  | [], _, worst => worst
  | seg :: rest, i, worst =>
    let s := trimSpace seg
    if s = "" then combineSegments evalSeg rest (i + 1) worst
    else if i > 0 && isPipeToShell s then
      (.ask, "pipe to shell interpreter: " ++ s)
    else
      let vr := evalSeg s
      if (worst.1).toNat < (vr.1).toNat then combineSegments evalSeg rest (i + 1) vr
      else combineSegments evalSeg rest (i + 1) worst

/-- Source `evaluateSegment`, with fuel for the recursion into
`evaluateCommand`; fuel `0` is never reached from the entry point. -/
def evaluateSegmentF (home : String) : Nat → String → String → Verdict × String
  | 0, _, _ => (.uncertain, "recursion limit")
  | fuel + 1, segment0, workDir =>
    let segment := trimSpace segment0
    if segment = "" then (.allow, "")
    else
      let baseCmd := extractBaseCommand segment
      if baseCmd = "" then (.uncertain, "could not extract command")
      else
        let args := extractArgs segment
        if alwaysAskCommands.contains baseCmd then (.ask, "dangerous command: " ++ baseCmd)
        else if alwaysSafeCommands.contains baseCmd then (.allow, "safe command: " ++ baseCmd)
        else if baseCmd = "git" then evaluateGit args
        else if baseCmd = "kubectl" then evaluateKubectl args
        else if baseCmd = "rm" then evaluateRm home args workDir
        else if baseCmd = "chmod" then evaluateChmod args
        else if baseCmd = "chown" then evaluateChown args
        else if baseCmd = "gh" then evaluateGh args
        else if baseCmd = "gcloud" then evaluateGcloud args
        else if baseCmd = "bq" then evaluateBq args
        else if baseCmd = "aws" then evaluateAws args
        else if baseCmd = "sed" then evaluateSed args
        else if baseCmd = "curl" || baseCmd = "wget" then
          (.allow, baseCmd ++ " (not piped to shell)")
        else if baseCmd = "kill" || baseCmd = "pkill" || baseCmd = "killall" then
          (.allow, "process management")
        else if baseCmd = "cp" || baseCmd = "mv" || baseCmd = "mkdir" || baseCmd = "touch" then
          evaluateFileCmd home baseCmd args workDir
        else if baseCmd = "ssh" then evaluateSSH args
        else if baseCmd = "scp" then (.uncertain, "scp (remote file transfer)")
        else if baseCmd = "docker" || baseCmd = "podman" then evaluateDocker args
        else if baseCmd = "docker-compose" then evaluateDockerCompose args
        else if baseCmd = "npm" || baseCmd = "yarn" || baseCmd = "pnpm" then
          evaluateNodePkgMgr baseCmd args
        else if baseCmd = "npx" then (.uncertain, "npx downloads and runs code")
        else if baseCmd = "pip" || baseCmd = "pip3" then evaluatePip baseCmd args
        else if baseCmd = "python" || baseCmd = "python3" || baseCmd = "node" ||
                baseCmd = "deno" || baseCmd = "bun" || baseCmd = "ruby" ||
                baseCmd = "swift" then
          evaluateRuntime baseCmd args
        else if baseCmd = "go" then evaluateGo args
        else if baseCmd = "cargo" then evaluateCargo args
        else if baseCmd = "helm" then evaluateHelm args
        else if baseCmd = "find" then evaluateFind args
        else if baseCmd = "tee" then evaluateTee home args workDir
        else if baseCmd = "nc" then (.uncertain, "netcat")
        else if baseCmd = "xargs" then (.uncertain, "xargs executes commands")
        else if baseCmd = "yes" then (.uncertain, "yes auto-confirms prompts")
        else if baseCmd = "nohup" || baseCmd = "time" then
          if args.isEmpty then (.uncertain, baseCmd ++ " (no command)")
          else
            combineSegments (fun s => evaluateSegmentF home fuel s workDir)
              (splitCompoundCommand (joinSpace args)) 0 (.allow, "")
        else if baseCmd = "timeout" then
          match timeoutRest args with
          | none => (.uncertain, "timeout (no command)")
          | some rest =>
            combineSegments (fun s => evaluateSegmentF home fuel s workDir)
              (splitCompoundCommand (joinSpace rest)) 0 (.allow, "")
        else if baseCmd = "brew" || baseCmd = "apt" || baseCmd = "apt-get" ||
                baseCmd = "yum" || baseCmd = "pacman" then
          evaluatePackageManager baseCmd args
        else (.uncertain, "unknown command: " ++ baseCmd)

/-- Source `evaluateCommand` at a given fuel. -/
def evaluateCommandF (home : String) (fuel : Nat) (command workDir : String) :
    Verdict × String :=
  combineSegments (fun s => evaluateSegmentF home fuel s workDir)
    (splitCompoundCommand command) 0 (.allow, "")

/-- Source `evaluateCommand`: each wrapper recursion strictly shrinks
the command string, so `command.length + 1` fuel never runs out. -/
def evaluateCommand (home command workDir : String) : Verdict × String :=
  evaluateCommandF home (command.length + 1) command workDir

/-! ### Tool-input decoding and the top-level dispatch

`tool_input` arrives as raw JSON; the classifier decodes it with Go's
`encoding/json`.  The embedding models a decoded JSON object as an
association list from keys to a minimal value type: a string value, or
any other JSON value (whose shape the classifier never inspects —
decoding it into a `string` field fails). -/

/-- A JSON value as far as the classifier observes it. -/
inductive JVal
  | jstr : String → JVal
  | jother : JVal
deriving DecidableEq, Repr

/-- Lookup in a decoded JSON object; with duplicate keys Go's decoder
keeps the last occurrence. -/
def jsonLookup (input : List (String × JVal)) (key : String) : Option JVal :=
  ((input.filter (fun p => p.1 = key)).map (fun p => p.2)).getLast?

/-- Decoding `tool_input` into the Bash handler's
`struct { Command string }`: a missing key leaves the zero value, a
non-string value is a decode error. -/
def decodeBashCommand (input : List (String × JVal)) : Option String :=
  match jsonLookup input "command" with
  | some (JVal.jstr s) => some s
  | some JVal.jother => none
  | none => some ""

/-- Source `evaluateBash` (after JSON decoding). -/
def evaluateBash (home : String) (input : List (String × JVal)) (workDir : String) :
    Verdict × String :=
  match decodeBashCommand input with
  | none => (.uncertain, "failed to parse command")
  | some raw =>
    let command := trimSpace raw
    if command = "" then (.uncertain, "empty command")
    else evaluateCommand home command workDir

/-- The `tool_input` key that holds the path for a file-operation tool. -/
def fileOpPathKey (toolName : String) : String :=
  if toolName = "NotebookEdit" then "notebook_path" else "file_path"

/-- Source `evaluateFileOp` (for `Write`, `Edit`, `NotebookEdit`). -/
def evaluateFileOp (home toolName : String) (input : List (String × JVal))
    (workDir : String) : Verdict × String :=
  let pathKey := fileOpPathKey toolName
  match jsonLookup input pathKey with
  | none => (.uncertain, toolName ++ " missing " ++ pathKey)
  | some JVal.jother => (.uncertain, "failed to parse " ++ pathKey)
  | some (JVal.jstr raw) =>
    let filePath := filepathClean raw
    if workDir ≠ "" && isWithinDir filePath workDir then
      (.allow, toolName ++ " within project")
    else if isSystemPath home filePath then
      (.ask, toolName ++ " targeting system path: " ++ filePath)
    else (.uncertain, toolName ++ " outside project: " ++ filePath)

/-- Source `EvaluateRules`: top-level dispatch by tool name. -/
def EvaluateRules (home toolName : String) (input : List (String × JVal))
    (workDir : String) : Verdict × String :=
  if toolName = "Bash" then evaluateBash home input workDir
  else if toolName = "Write" || toolName = "Edit" || toolName = "NotebookEdit" then
    evaluateFileOp home toolName input workDir
  else (.uncertain, "unknown tool: " ++ toolName)

/-! ### Specification-side characterizations used in claim statements -/

/-- One step of the segment-combination fold: skip blank segments,
otherwise keep the worse of the running verdict and the segment's. -/
def combineStep (evalSeg : String → Verdict × String) (w : Verdict × String)
    (s : String) : Verdict × String :=
  let t := trimSpace s
  if t = "" then w
  else if (w.1).toNat < ((evalSeg t).1).toNat then evalSeg t else w

/-- Some chmod argument is `777` or `a+rwx`. -/
def chmodHasMode (args : List String) : Bool := args.any isChmodMode

/-- The chmod arguments strictly before the first `777`/`a+rwx`. -/
def chmodPre (args : List String) : List String :=
  args.takeWhile (fun a => !isChmodMode a)

/-- The condition under which the claim's reading of `evaluateRm` asks:
the normalized target is a dangerous root, or recursion is combined
with parent traversal in the raw target, or recursion reaches outside a
non-empty working directory. -/
def rmTargetBad (home workDir : String) (hasRecursive : Bool) (target : String) : Bool :=
  (rmDangerousPaths home).any (fun dp => rmAbsTarget workDir target = dp) ||
  (hasRecursive && goContains target "..") ||
  (hasRecursive && workDir ≠ "" && !isWithinDir (rmAbsTarget workDir target) workDir)

/-- A segment character that never interacts with the splitter: not a
quote and not an operator character. -/
def isPlainSegChar (c : Char) : Bool :=
  !(c = '\'' || c = '"' || c = '&' || c = '|' || c = ';')

/-! ### General lemmas -/

theorem data_append (a b : String) : (a ++ b).data = a.data ++ b.data := by
  cases a; cases b; rfl

theorem mk_data (s : String) : (⟨s.data⟩ : String) = s := by
  cases s; rfl

theorem isPrefixOf_append_right {l d : List Char} (t : List Char)
    (h : l.isPrefixOf d = true) : l.isPrefixOf (d ++ t) = true := by
  induction l generalizing d with
  | nil => simp
  | cons c cs ih =>
    cases d with
    | nil => simp [List.isPrefixOf] at h
    | cons x xs =>
      simp only [List.cons_append, List.isPrefixOf_cons₂, Bool.and_eq_true] at h ⊢
      exact ⟨h.1, ih h.2⟩

theorem Verdict.max_uncertain (w : Verdict) : Verdict.max w .uncertain = .uncertain := by
  cases w <;> rfl

theorem Verdict.uncertain_max (v : Verdict) : Verdict.max .uncertain v = .uncertain := by
  cases v <;> rfl

theorem foldl_max_from_uncertain (g : String → Verdict) (l : List String) :
    l.foldl (fun w s => Verdict.max w (g s)) .uncertain = .uncertain := by
  induction l with
  | nil => rfl
  | cons a l ih => simpa [Verdict.uncertain_max] using ih

theorem foldl_max_uncertain_mem (g : String → Verdict) (l : List String) (x : String)
    (hx : x ∈ l) (hg : g x = .uncertain) (init : Verdict) :
    l.foldl (fun w s => Verdict.max w (g s)) init = .uncertain := by
  induction l generalizing init with
  | nil => cases hx
  | cons a l ih =>
    rcases List.mem_cons.mp hx with h | h
    · subst h
      simp only [List.foldl_cons, hg, Verdict.max_uncertain]
      exact foldl_max_from_uncertain g l
    · exact ih h _

/-! ### Lemmas about the segment-combination loop -/

theorem combineSegments_no_pipe (f : String → Verdict × String) (segs : List String)
    (i : Nat) (worst : Verdict × String)
    (h : ∀ s ∈ segs, isPipeToShell (trimSpace s) = false) :
    combineSegments f segs i worst = segs.foldl (combineStep f) worst := by
  induction segs generalizing i worst with
  | nil => rfl
  | cons s rest ih =>
    have hs := h s (List.mem_cons_self s rest)
    have hrest : ∀ x ∈ rest, isPipeToShell (trimSpace x) = false :=
      fun x hx => h x (List.mem_cons_of_mem s hx)
    simp only [combineSegments, combineStep, List.foldl_cons, hs, Bool.and_false]
    by_cases he : trimSpace s = ""
    · simp only [he, if_pos rfl, if_true]
      exact ih (i + 1) worst hrest
    · simp only [if_neg he]
      by_cases hlt : (worst.1).toNat < ((f (trimSpace s)).1).toNat
      · simp only [if_pos hlt]
        exact ih (i + 1) _ hrest
      · simp only [if_neg hlt]
        exact ih (i + 1) worst hrest

theorem combineSegments_head_eq_fold (f : String → Verdict × String) (segs : List String)
    (worst : Verdict × String)
    (h : ∀ s ∈ segs.drop 1, isPipeToShell (trimSpace s) = false) :
    combineSegments f segs 0 worst = segs.foldl (combineStep f) worst := by
  cases segs with
  | nil => rfl
  | cons s rest =>
    simp only [List.drop_succ_cons, List.drop_zero] at h
    simp only [combineSegments, combineStep, List.foldl_cons]
    by_cases he : trimSpace s = ""
    · simp only [he, if_pos rfl, if_true]
      exact combineSegments_no_pipe f rest 1 worst h
    · have h0 : (decide (0 > 0) && isPipeToShell (trimSpace s)) = false := by simp
      simp only [if_neg he, h0, Bool.false_eq_true, if_false]
      by_cases hlt : (worst.1).toNat < ((f (trimSpace s)).1).toNat
      · simp only [if_pos hlt]
        exact combineSegments_no_pipe f rest 1 _ h
      · simp only [if_neg hlt]
        exact combineSegments_no_pipe f rest 1 worst h

theorem foldl_combineStep_fst (f : String → Verdict × String) (segs : List String)
    (worst : Verdict × String) :
    (segs.foldl (combineStep f) worst).1 =
      ((segs.map trimSpace).filter (fun s => s ≠ "")).foldl
        (fun w s => Verdict.max w ((f s).1)) worst.1 := by
  induction segs generalizing worst with
  | nil => rfl
  | cons s rest ih =>
    simp only [List.foldl_cons, List.map_cons]
    by_cases he : trimSpace s = ""
    · rw [ih]
      simp [combineStep, he]
    · have hstep : (combineStep f worst s).1 = Verdict.max worst.1 ((f (trimSpace s)).1) := by
        simp only [combineStep, Verdict.max, if_neg he]
        by_cases hlt : (worst.1).toNat < ((f (trimSpace s)).1).toNat
        · simp [hlt]
        · simp [hlt]
      rw [ih, hstep]
      simp [List.filter_cons, he]

theorem evaluateSegmentF_blank (home : String) (fuel : Nat) (workDir : String) :
    evaluateSegmentF home (fuel + 1) "" workDir = (.allow, "") := by
  simp [evaluateSegmentF, trimSpace, trimSpaceList, dropLeadingSpace]

theorem combineSegments_pipe (f : String → Verdict × String) (segs : List String) :
    ∀ (i : Nat) (worst : Verdict × String) (j : Nat) (hj : j < segs.length),
      0 < i + j →
      isPipeToShell (trimSpace (segs.get ⟨j, hj⟩)) = true →
      ∃ s, combineSegments f segs i worst =
        (Verdict.ask, "pipe to shell interpreter: " ++ s) := by
  induction segs with
  | nil =>
    intro i worst j hj
    exact absurd hj (Nat.not_lt_zero j)
  | cons s rest ih =>
    intro i worst j hj hpos hp
    by_cases he : trimSpace s = ""
    · cases j with
      | zero =>
        have : isPipeToShell "" = true := by
          have hget : (s :: rest).get ⟨0, hj⟩ = s := rfl
          rw [hget, he] at hp
          exact hp
        exact absurd this (by decide)
      | succ k =>
        have hk : k < rest.length := Nat.lt_of_succ_lt_succ hj
        have hget : (s :: rest).get ⟨k + 1, hj⟩ = rest.get ⟨k, hk⟩ := rfl
        rw [hget] at hp
        have hres : combineSegments f (s :: rest) i worst =
            combineSegments f rest (i + 1) worst := by
          simp [combineSegments, he]
        rw [hres]
        exact ih (i + 1) worst k hk (by omega) hp
    · by_cases hpipe : (decide (i > 0) && isPipeToShell (trimSpace s)) = true
      · refine ⟨trimSpace s, ?_⟩
        simp [combineSegments, he, hpipe]
      · cases j with
        | zero =>
          have hget : (s :: rest).get ⟨0, hj⟩ = s := rfl
          rw [hget] at hp
          have hi : 0 < i := by simpa using hpos
          have : (decide (i > 0) && isPipeToShell (trimSpace s)) = true := by
            simp [hi, hp]
          exact absurd this hpipe
        | succ k =>
          have hk : k < rest.length := Nat.lt_of_succ_lt_succ hj
          have hget : (s :: rest).get ⟨k + 1, hj⟩ = rest.get ⟨k, hk⟩ := rfl
          rw [hget] at hp
          have hres : combineSegments f (s :: rest) i worst =
              combineSegments f rest (i + 1)
                (if (worst.1).toNat < ((f (trimSpace s)).1).toNat then f (trimSpace s)
                 else worst) := by
            simp only [combineSegments, if_neg he, hpipe, Bool.false_eq_true, if_false]
            by_cases hlt : (worst.1).toNat < ((f (trimSpace s)).1).toNat
            · simp [hlt]
            · simp [hlt]
          rw [hres]
          exact ih (i + 1) _ k hk (by omega) hp

/-! ### Claim C2 -/

/-- C2 (confirmed): for a compound Bash command in which no segment
after the first is a pipe to a shell interpreter, the command's verdict
is the maximum of the per-segment verdicts under
`Allow(0) < Ask(1) < Uncertain(2)`, with blank segments skipped. -/
theorem c2_verdict_is_worst_segment (home command workDir : String)
    (hnp : ∀ s ∈ (splitCompoundCommand command).drop 1,
      isPipeToShell (trimSpace s) = false) :
    (evaluateCommand home command workDir).1 =
      (((splitCompoundCommand command).map trimSpace).filter (fun s => s ≠ "")).foldl
        (fun w s =>
          Verdict.max w ((evaluateSegmentF home (command.length + 1) s workDir).1))
        Verdict.allow := by
  unfold evaluateCommand evaluateCommandF
  rw [combineSegments_head_eq_fold _ _ _ hnp]
  exact foldl_combineStep_fst _ _ _

/-- Witness for C2 at the concrete command `"ls; sudo reboot"`. -/
theorem c2_verdict_is_worst_segment_witness :
    (∀ s ∈ (splitCompoundCommand "ls; sudo reboot").drop 1,
      isPipeToShell (trimSpace s) = false) ∧
    (evaluateCommand "" "ls; sudo reboot" "/proj").1 =
      (((splitCompoundCommand "ls; sudo reboot").map trimSpace).filter
          (fun s => s ≠ "")).foldl
        (fun w s =>
          Verdict.max w
            ((evaluateSegmentF "" ("ls; sudo reboot".length + 1) s "/proj").1))
        Verdict.allow :=
  ⟨by decide, c2_verdict_is_worst_segment "" "ls; sudo reboot" "/proj" (by decide)⟩

/-! ### Claim C1 -/

/-- C1 (corrected) counterexample: in `"sudo ls; frobnicate"` the first
segment classifies to `Ask`, the second to `Uncertain`, no
pipe-to-interpreter short-circuit fires, yet the whole command's
verdict is `Uncertain`, not `Ask` — the source takes the maximum under
`Allow(0) < Ask(1) < Uncertain(2)`, so `Uncertain` outranks `Ask`. -/
theorem c1_counterexample :
    (evaluateSegmentF "" ("sudo ls; frobnicate".length + 1)
        (trimSpace "sudo ls") "/proj").1 = Verdict.ask ∧
    (evaluateSegmentF "" ("sudo ls; frobnicate".length + 1)
        (trimSpace " frobnicate") "/proj").1 = Verdict.uncertain ∧
    (∀ s ∈ (splitCompoundCommand "sudo ls; frobnicate").drop 1,
      isPipeToShell (trimSpace s) = false) ∧
    (evaluateCommand "" "sudo ls; frobnicate" "/proj").1 ≠ Verdict.ask := by
  decide

/-- C1 (corrected, amended): with no pipe-to-interpreter short-circuit,
if one segment classifies to `Ask` and another to `Uncertain`, the
whole command's verdict is `Uncertain` — the `Uncertain` segment
overrides the explicit `Ask` under the source's max-combination. -/
theorem c1_amended_uncertain_overrides_ask (home command workDir : String)
    (hnp : ∀ s ∈ (splitCompoundCommand command).drop 1,
      isPipeToShell (trimSpace s) = false)
    (s1 s2 : String)
    (h1 : s1 ∈ splitCompoundCommand command)
    (h2 : s2 ∈ splitCompoundCommand command)
    (ha : (evaluateSegmentF home (command.length + 1) (trimSpace s1) workDir).1 =
      Verdict.ask)
    (hu : (evaluateSegmentF home (command.length + 1) (trimSpace s2) workDir).1 =
      Verdict.uncertain) :
    (evaluateCommand home command workDir).1 = Verdict.uncertain := by
  have hne : trimSpace s2 ≠ "" := by
    intro h
    rw [h, evaluateSegmentF_blank] at hu
    exact absurd hu (by decide)
  have hmem : trimSpace s2 ∈
      ((splitCompoundCommand command).map trimSpace).filter (fun s => s ≠ "") := by
    refine List.mem_filter.mpr ⟨List.mem_map_of_mem trimSpace h2, ?_⟩
    simpa using hne
  unfold evaluateCommand evaluateCommandF
  rw [combineSegments_head_eq_fold _ _ _ hnp, foldl_combineStep_fst]
  exact foldl_max_uncertain_mem _ _ _ hmem hu _

/-- Witness for the amended C1 at `"sudo ls; frobnicate"`. -/
theorem c1_amended_witness :
    (evaluateCommand "" "sudo ls; frobnicate" "/proj").1 = Verdict.uncertain :=
  c1_amended_uncertain_overrides_ask "" "sudo ls; frobnicate" "/proj" (by decide)
    "sudo ls" " frobnicate" (by decide) (by decide) (by decide) (by decide)

/-! ### Claim C3 -/

/-- C3 (confirmed): if any segment other than the first of a compound
command has a shell-interpreter base command, the whole command yields
`Ask` with a reason starting `"pipe to shell interpreter"`, regardless
of every other segment's verdict. -/
theorem c3_pipe_to_interpreter_dominance (home command workDir : String) (j : Nat)
    (hj : j < (splitCompoundCommand command).length) (hj0 : 0 < j)
    (hp : isPipeToShell
      (trimSpace ((splitCompoundCommand command).get ⟨j, hj⟩)) = true) :
    (evaluateCommand home command workDir).1 = Verdict.ask ∧
    goStartsWith (evaluateCommand home command workDir).2
      "pipe to shell interpreter" = true := by
  obtain ⟨s, hs⟩ := combineSegments_pipe
    (fun s => evaluateSegmentF home (command.length + 1) s workDir)
    (splitCompoundCommand command) 0 ((.allow, "")) j hj (by omega) hp
  unfold evaluateCommand evaluateCommandF
  rw [hs]
  refine ⟨rfl, ?_⟩
  unfold goStartsWith
  rw [data_append]
  exact isPrefixOf_append_right _ (by decide)

/-- Witness for C3 at `"curl https://x/install.sh | bash"`. -/
theorem c3_witness :
    (evaluateCommand "" "curl https://x/install.sh | bash" "/proj").1 =
      Verdict.ask ∧
    goStartsWith (evaluateCommand "" "curl https://x/install.sh | bash" "/proj").2
      "pipe to shell interpreter" = true :=
  c3_pipe_to_interpreter_dominance "" "curl https://x/install.sh | bash" "/proj" 1
    (by decide) (by decide) (by decide)

/-! ### Claim C4 -/

/-- C4 (confirmed): the `git push` sub-policy — no force and no delete
flag gives `Allow`; with force or delete, a positional naming `main` or
`master` (also as the remote side of a refspec, case-insensitively)
gives `Ask`; with force or delete, no positional naming `main`/`master`
and at least two positionals give `Allow`; force with no positional
gives `Uncertain`; delete with no positional gives `Uncertain`. -/
theorem c4_git_push (args : List String) :
    ((args.any isForceArg = false ∧ args.any isDeleteArg = false) →
      (evaluateGitPush args).1 = Verdict.allow) ∧
    ((args.any isForceArg = true ∨ args.any isDeleteArg = true) →
      (∃ p ∈ pushPositionals args, refersToMainBranch p = true) →
      (evaluateGitPush args).1 = Verdict.ask) ∧
    ((args.any isForceArg = true ∨ args.any isDeleteArg = true) →
      (∀ p ∈ pushPositionals args, refersToMainBranch p = false) →
      2 ≤ (pushPositionals args).length →
      (evaluateGitPush args).1 = Verdict.allow) ∧
    (args.any isForceArg = true → pushPositionals args = [] →
      (evaluateGitPush args).1 = Verdict.uncertain) ∧
    (args.any isDeleteArg = true → pushPositionals args = [] →
      (evaluateGitPush args).1 = Verdict.uncertain) := by
  refine ⟨?_, ?_, ?_, ?_, ?_⟩
  · rintro ⟨hf, hd⟩
    simp [evaluateGitPush, hf, hd]
  · rintro hor ⟨p, hp, hrm⟩
    have hguard : (!args.any isForceArg && !args.any isDeleteArg) = false := by
      rcases hor with h | h <;> simp [h]
    cases hfind : (pushPositionals args).find? refersToMainBranch with
    | none =>
      exact absurd hrm (by simpa using List.find?_eq_none.mp hfind p hp)
    | some q =>
      by_cases hforce : args.any isForceArg = true
      · simp [evaluateGitPush, hguard, hfind, hforce]
      · have hdel : args.any isDeleteArg = true := by
          rcases hor with h | h
          · exact absurd h hforce
          · exact h
        simp [evaluateGitPush, hguard, hfind, hforce, hdel]
  · intro hor hall hlen
    have hguard : (!args.any isForceArg && !args.any isDeleteArg) = false := by
      rcases hor with h | h <;> simp [h]
    have hfind : (pushPositionals args).find? refersToMainBranch = none :=
      List.find?_eq_none.mpr (fun p hp => by simp [hall p hp])
    simp [evaluateGitPush, hguard, hfind, hlen]
  · intro hf hpos
    have hguard : (!args.any isForceArg && !args.any isDeleteArg) = false := by
      simp [hf]
    simp [evaluateGitPush, hguard, hpos, hf]
  · intro hd hpos
    have hguard : (!args.any isForceArg && !args.any isDeleteArg) = false := by
      simp [hd]
    by_cases hforce : args.any isForceArg = true
    · simp [evaluateGitPush, hguard, hpos, hforce]
    · simp [evaluateGitPush, hguard, hpos, hforce, hd]

/-- Witness for C4: each clause applied at a concrete `git push`
argument list. -/
theorem c4_git_push_witness :
    (evaluateGitPush ["--force", "origin", "main"]).1 = Verdict.ask ∧
    (evaluateGitPush ["origin", "main"]).1 = Verdict.allow ∧
    (evaluateGitPush ["--force", "origin", "feature-x"]).1 = Verdict.allow ∧
    (evaluateGitPush ["--force"]).1 = Verdict.uncertain ∧
    (evaluateGitPush ["-d"]).1 = Verdict.uncertain := by
  refine ⟨?_, ?_, ?_, ?_, ?_⟩
  · exact (c4_git_push _).2.1 (Or.inl (by decide)) ⟨"main", by decide, by decide⟩
  · exact (c4_git_push _).1 (by decide)
  · exact (c4_git_push _).2.2.1 (Or.inl (by decide)) (by decide) (by decide)
  · exact (c4_git_push _).2.2.2.1 (by decide) (by decide)
  · exact (c4_git_push _).2.2.2.2 (by decide) (by decide)

/-! ### Claim C6 -/

theorem evaluateRmLoop_eq (home workDir : String) (hasRecursive : Bool)
    (ts : List String) :
    (evaluateRmLoop home workDir hasRecursive ts).1 =
      (if ts.any (rmTargetBad home workDir hasRecursive) then Verdict.ask
       else Verdict.allow) := by
  induction ts with
  | nil => rfl
  | cons t rest ih =>
    simp only [evaluateRmLoop, List.any_cons, rmTargetBad]
    by_cases h1 : (rmDangerousPaths home).any (fun dp => rmAbsTarget workDir t = dp) = true
    · simp [h1]
    · simp only [Bool.not_eq_true] at h1
      by_cases h2 : (hasRecursive && goContains t "..") = true
      · simp [h1, h2]
      · simp only [Bool.not_eq_true] at h2
        by_cases h3 :
            (hasRecursive = true ∧ ¬workDir = "") ∧
              isWithinDir (rmAbsTarget workDir t) workDir = false
        · simp only [h1, h2, h3]
          simp [h1, h2, h3]
          split <;> rfl
        · simp [h1, h2, h3, ih]

/-- C6 (confirmed): the `rm` sub-policy asks exactly when some target —
made absolute against `working_dir` when relative and `Clean`-normalized
— equals a dangerous root (`/`, `/etc`, `/usr`, `/var`, `/home`,
`/Users`, or the home directory when set), or recursion is combined
with `..` in the raw target, or recursion is combined with a non-empty
`working_dir` that does not contain the target; otherwise it allows. -/
theorem c6_rm_policy (home workDir : String) (args : List String) :
    (evaluateRm home args workDir).1 =
      (if (rmTargets args).any (rmTargetBad home workDir (rmHasRecursive args)) then
        Verdict.ask
       else Verdict.allow) := by
  unfold evaluateRm
  by_cases he : rmTargets args = []
  · simp [he]
  · have : (rmTargets args).isEmpty = false := by
      simpa [List.isEmpty_iff] using he
    simp only [this, Bool.false_eq_true, if_false]
    exact evaluateRmLoop_eq home workDir (rmHasRecursive args) (rmTargets args)

/-! ### Claim C7 -/

/-- C7 (corrected) counterexample: `chmod 777 -R /x` has a recursion
flag among its arguments, yet the verdict is `Uncertain`, not `Ask` —
the source decides at the first `777`/`a+rwx` argument using only the
flags seen before it. -/
theorem c7_counterexample :
    (["777", "-R", "/x"].any isChmodRecFlag = true) ∧
    evaluateChmod ["777", "-R", "/x"] = (Verdict.uncertain, "chmod 777") := by
  decide

theorem evaluateChmodLoop_eq (args : List String) : ∀ hasRecursive : Bool,
    (evaluateChmodLoop hasRecursive args).1 =
      (if chmodHasMode args then
        (if hasRecursive || (chmodPre args).any isChmodRecFlag then Verdict.ask
         else Verdict.uncertain)
       else Verdict.allow) := by
  induction args with
  | nil => intro hasRecursive; rfl
  | cons a rest ih =>
    intro hasRecursive
    by_cases hm : isChmodMode a = true
    · have hrf : isChmodRecFlag a = false := by
        rcases (by simpa [isChmodMode] using hm : a = "777" ∨ a = "a+rwx") with rfl | rfl <;>
          decide
      cases hasRecursive <;> simp [evaluateChmodLoop, chmodHasMode, chmodPre, hm, hrf]
    · simp only [Bool.not_eq_true] at hm
      simp [evaluateChmodLoop, hm, ih, chmodHasMode, chmodPre, Bool.or_assoc]

/-- C7 (corrected, amended): if some chmod argument is `777` or
`a+rwx`, the verdict is `Ask` when a recursion flag (`-R` or
`--recursive`) appears before the first such argument and `Uncertain`
otherwise; with no `777`/`a+rwx` argument the verdict is `Allow`. -/
theorem c7_amended_chmod (args : List String) :
    (evaluateChmod args).1 =
      (if chmodHasMode args then
        (if (chmodPre args).any isChmodRecFlag then Verdict.ask else Verdict.uncertain)
       else Verdict.allow) := by
  have h := evaluateChmodLoop_eq args false
  simpa [evaluateChmod] using h

/-! ### Claim C5 -/

/-- C5 (corrected) counterexample: with `working_dir = "/etc"` the
path `/etc/hosts` is a system path yet the Write classifies to `Allow`,
not `Ask` — the within-project rule runs before the system-path rule. -/
theorem c5_counterexample :
    isSystemPath "" (filepathClean "/etc/hosts") = true ∧
    evaluateFileOp "" "Write" [("file_path", JVal.jstr "/etc/hosts")] "/etc" =
      (Verdict.allow, "Write within project") := by
  decide

/-- C5 (corrected, amended): for a file-operation call whose path
decodes, a path within a non-empty `working_dir` classifies to `Allow`,
and a system path classifies to `Ask` provided it is not within
`working_dir`. -/
theorem c5_amended_file_op (home toolName workDir P : String)
    (input : List (String × JVal))
    (hdecode : jsonLookup input (fileOpPathKey toolName) = some (JVal.jstr P)) :
    ((workDir ≠ "" ∧ isWithinDir (filepathClean P) workDir = true) →
      evaluateFileOp home toolName input workDir =
        (Verdict.allow, toolName ++ " within project")) ∧
    (isSystemPath home (filepathClean P) = true →
      ¬(workDir ≠ "" ∧ isWithinDir (filepathClean P) workDir = true) →
      (evaluateFileOp home toolName input workDir).1 = Verdict.ask) := by
  constructor
  · rintro ⟨h1, h2⟩
    simp [evaluateFileOp, hdecode, h1, h2]
  · intro hsys hnot
    by_cases hw : workDir = ""
    · simp [evaluateFileOp, hdecode, hw, hsys]
    · have h2 : isWithinDir (filepathClean P) workDir = false := by
        rcases Bool.eq_false_or_eq_true (isWithinDir (filepathClean P) workDir) with h | h
        · exact absurd ⟨hw, h⟩ hnot
        · exact h
      simp [evaluateFileOp, hdecode, hw, h2, hsys]

/-- Witness for the amended C5: in-project write allowed, out-of-project
system write asked. -/
theorem c5_amended_witness :
    evaluateFileOp "" "Write" [("file_path", JVal.jstr "/proj/src/main.go")] "/proj" =
      (Verdict.allow, "Write within project") ∧
    (evaluateFileOp "" "Write" [("file_path", JVal.jstr "/etc/hosts")] "/proj").1 =
      Verdict.ask := by
  constructor
  · exact (c5_amended_file_op "" "Write" "/proj" "/proj/src/main.go" _ (by decide)).1
      ⟨by decide, by decide⟩
  · exact (c5_amended_file_op "" "Write" "/proj" "/etc/hosts" _ (by decide)).2
      (by decide) (by decide)

/-! ### Claim C9 -/

/-- C9 (confirmed): the system-path classifier is separator-aware —
`/etcfoo` is not inside `/etc` while `/etc/foo` and `/etc` itself are —
and with `HOME` unset or empty the home-based dotfile and directory
checks are skipped, so the classifier reduces to the system-directory
test and no home-relative path (for example an `.ssh` key) is a system
path. -/
theorem c9_system_path_classifier :
    isSystemPath "" "/etcfoo" = false ∧
    isSystemPath "" "/etc/foo" = true ∧
    isSystemPath "" "/etc" = true ∧
    isSystemPath "/root" "/root/.ssh/id_rsa" = true ∧
    isSystemPath "" "/root/.ssh/id_rsa" = false ∧
    (∀ path : String, isSystemPath "" path = systemPrefixHit path) := by
  refine ⟨by decide, by decide, by decide, by decide, by decide, ?_⟩
  intro path
  unfold isSystemPath systemPrefixHit
  cases h : systemPrefixes.any (fun p =>
      filepathClean path = p || goStartsWith (filepathClean path) (p ++ "/")) with
  | false => simp [h]
  | true => simp [h]

/-! ### Claim C10 -/

/-- C10 (confirmed): when `tool_input` decodes but the command is empty
or only white space after trimming, the Bash handler returns
`Uncertain` with reason `"empty command"` — in particular it never
returns `Allow` or `Ask` for such an input. -/
theorem c10_empty_command (home workDir : String) (input : List (String × JVal))
    (cmd : String) (hdecode : decodeBashCommand input = some cmd)
    (hempty : trimSpace cmd = "") :
    evaluateBash home input workDir = (Verdict.uncertain, "empty command") := by
  simp [evaluateBash, hdecode, hempty]

/-- Witness for C10 at a whitespace-only command. -/
theorem c10_empty_command_witness :
    decodeBashCommand [("command", JVal.jstr "   ")] = some "   " ∧
    trimSpace "   " = "" ∧
    evaluateBash "" [("command", JVal.jstr "   ")] "/proj" =
      (Verdict.uncertain, "empty command") :=
  ⟨by decide, by decide,
    c10_empty_command "" "/proj" [("command", JVal.jstr "   ")] "   "
      (by decide) (by decide)⟩

/-! ### Claim C8 -/

theorem splitCCAux_in_single (u : List Char) :
    ∀ (rest cur : List Char), '\'' ∉ u →
      splitCCAux (u ++ rest) true false cur = splitCCAux rest true false (cur ++ u) := by
  induction u with
  | nil => intro rest cur _; simp
  | cons c u ih =>
    intro rest cur h
    have hc : ¬(c = '\'') := fun hq => h (hq ▸ List.mem_cons_self c u)
    have hu : '\'' ∉ u := fun hm => h (List.mem_cons_of_mem c hm)
    rw [List.cons_append]
    rw [splitCCAux.eq_4 true false cur c (u ++ rest)
      (fun _ _ _ hx _ => Bool.noConfusion hx) (fun _ _ _ hx _ => Bool.noConfusion hx)]
    simp [hc, ih rest (cur ++ [c]) hu, List.append_assoc]

theorem splitCCAux_in_double (u : List Char) :
    ∀ (rest cur : List Char), '"' ∉ u →
      splitCCAux (u ++ rest) false true cur = splitCCAux rest false true (cur ++ u) := by
  induction u with
  | nil => intro rest cur _; simp
  | cons c u ih =>
    intro rest cur h
    have hc : ¬(c = '"') := fun hq => h (hq ▸ List.mem_cons_self c u)
    have hu : '"' ∉ u := fun hm => h (List.mem_cons_of_mem c hm)
    rw [List.cons_append]
    rw [splitCCAux.eq_4 false true cur c (u ++ rest)
      (fun _ _ _ _ hx => Bool.noConfusion hx) (fun _ _ _ _ hx => Bool.noConfusion hx)]
    simp [hc, ih rest (cur ++ [c]) hu, List.append_assoc]

theorem splitCCAux_plain (a : List Char) :
    ∀ (rest cur : List Char), (∀ c ∈ a, isPlainSegChar c = true) →
      splitCCAux (a ++ rest) false false cur = splitCCAux rest false false (cur ++ a) := by
  induction a with
  | nil => intro rest cur _; simp
  | cons c a ih =>
    intro rest cur h
    have hc := h c (List.mem_cons_self c a)
    have ha : ∀ x ∈ a, isPlainSegChar x = true := fun x hx => h x (List.mem_cons_of_mem c hx)
    have hc5 : (((¬c = '\'' ∧ ¬c = '"') ∧ ¬c = '&') ∧ ¬c = '|') ∧ ¬c = ';' := by
      simpa [isPlainSegChar, not_or] using hc
    obtain ⟨⟨⟨⟨hq1, hq2⟩, hq3⟩, hq4⟩, hq5⟩ := hc5
    rw [List.cons_append]
    rw [splitCCAux.eq_4 false false cur c (a ++ rest)
      (fun _ hce _ _ _ => hq3 hce) (fun _ hce _ _ _ => hq4 hce)]
    simp [hq1, hq2, hq3, hq4, hq5, ih rest (cur ++ [c]) ha, List.append_assoc]

theorem splitCC_single_quoted (u : String) (h : '\'' ∉ u.data) :
    splitCompoundCommand ("'" ++ u ++ "'") = ["'" ++ u ++ "'"] := by
  have hdata : ("'" ++ u ++ "'").data = '\'' :: (u.data ++ ['\'']) := by
    simp [data_append]
  unfold splitCompoundCommand
  rw [hdata]
  rw [show splitCCAux ('\'' :: (u.data ++ ['\''])) false false [] =
      splitCCAux (u.data ++ ['\'']) true false ['\''] from rfl]
  rw [splitCCAux_in_single u.data ['\''] ['\''] h]
  rw [show splitCCAux ['\''] true false (['\''] ++ u.data) =
      splitCCAux [] false false ((['\''] ++ u.data) ++ ['\'']) from rfl]
  rw [splitCCAux.eq_1]
  have hstr : (⟨'\'' :: (u.data ++ ['\''])⟩ : String) = "'" ++ u ++ "'" := by
    rw [← hdata, mk_data]
  simp [← hstr]

theorem splitCC_double_quoted (u : String) (h : '"' ∉ u.data) :
    splitCompoundCommand ("\"" ++ u ++ "\"") = ["\"" ++ u ++ "\""] := by
  have hdata : ("\"" ++ u ++ "\"").data = '"' :: (u.data ++ ['"']) := by
    simp [data_append]
  unfold splitCompoundCommand
  rw [hdata]
  rw [show splitCCAux ('"' :: (u.data ++ ['"'])) false false [] =
      splitCCAux (u.data ++ ['"']) false true ['"'] from rfl]
  rw [splitCCAux_in_double u.data ['"'] ['"'] h]
  rw [show splitCCAux ['"'] false true (['"'] ++ u.data) =
      splitCCAux [] false false ((['"'] ++ u.data) ++ ['"']) from rfl]
  rw [splitCCAux.eq_1]
  have hstr : (⟨'"' :: (u.data ++ ['"'])⟩ : String) = "\"" ++ u ++ "\"" := by
    rw [← hdata, mk_data]
  simp [← hstr]

theorem splitCC_semicolon (a b : String) (h : ∀ c ∈ a.data, isPlainSegChar c = true) :
    splitCompoundCommand (a ++ ";" ++ b) = a :: splitCompoundCommand b := by
  have hdata : (a ++ ";" ++ b).data = a.data ++ (';' :: b.data) := by
    simp [data_append]
  unfold splitCompoundCommand
  rw [hdata, splitCCAux_plain a.data (';' :: b.data) [] h]
  rw [show splitCCAux (';' :: b.data) false false ([] ++ a.data) =
      ⟨[] ++ a.data⟩ :: splitCCAux b.data false false [] from rfl]
  simp [mk_data]

theorem splitCC_andand (a b : String) (h : ∀ c ∈ a.data, isPlainSegChar c = true) :
    splitCompoundCommand (a ++ "&&" ++ b) = a :: splitCompoundCommand b := by
  have hdata : (a ++ "&&" ++ b).data = a.data ++ ('&' :: '&' :: b.data) := by
    simp [data_append]
  unfold splitCompoundCommand
  rw [hdata, splitCCAux_plain a.data ('&' :: '&' :: b.data) [] h]
  rw [splitCCAux.eq_2]
  simp [mk_data]

theorem splitCC_oror (a b : String) (h : ∀ c ∈ a.data, isPlainSegChar c = true) :
    splitCompoundCommand (a ++ "||" ++ b) = a :: splitCompoundCommand b := by
  have hdata : (a ++ "||" ++ b).data = a.data ++ ('|' :: '|' :: b.data) := by
    simp [data_append]
  unfold splitCompoundCommand
  rw [hdata, splitCCAux_plain a.data ('|' :: '|' :: b.data) [] h]
  rw [splitCCAux.eq_3]
  simp [mk_data]

theorem splitCC_pipe (a b : String) (h : ∀ c ∈ a.data, isPlainSegChar c = true)
    (hb : b.data.head? ≠ some '|') :
    splitCompoundCommand (a ++ "|" ++ b) = a :: splitCompoundCommand b := by
  have hdata : (a ++ "|" ++ b).data = a.data ++ ('|' :: b.data) := by
    simp [data_append]
  unfold splitCompoundCommand
  rw [hdata, splitCCAux_plain a.data ('|' :: b.data) [] h]
  cases hbd : b.data with
  | nil =>
    rw [show splitCCAux ['|'] false false ([] ++ a.data) = [⟨[] ++ a.data⟩] from rfl]
    simp [mk_data, splitCCAux.eq_1]
  | cons c2 rest =>
    have hc2 : ¬(c2 = '|') := by
      intro hq
      rw [hbd, hq] at hb
      exact hb rfl
    rw [splitCCAux.eq_4 false false ([] ++ a.data) '|' (c2 :: rest)
      (fun _ hce _ _ _ => absurd hce (by decide))
      (fun _ _ hcs _ _ => hc2 (by injection hcs))]
    simp [mk_data]

/-- C8 (confirmed): the compound-command splitter protects quotes — the
operators `&&`, `||`, `;` and single `|` split only outside quotes.  A
single-quoted block (which may contain `"` and any operators) and a
double-quoted block (which may contain `'` and any operators) each stay
one segment with the quote characters preserved in the segment text and
without one quote kind nesting inside the other; outside quotes, each
operator splits the command. -/
theorem c8_splitter_quote_protection :
    (∀ u : String, '\'' ∉ u.data →
      splitCompoundCommand ("'" ++ u ++ "'") = ["'" ++ u ++ "'"]) ∧
    (∀ u : String, '"' ∉ u.data →
      splitCompoundCommand ("\"" ++ u ++ "\"") = ["\"" ++ u ++ "\""]) ∧
    (∀ a b : String, (∀ c ∈ a.data, isPlainSegChar c = true) →
      splitCompoundCommand (a ++ ";" ++ b) = a :: splitCompoundCommand b) ∧
    (∀ a b : String, (∀ c ∈ a.data, isPlainSegChar c = true) →
      splitCompoundCommand (a ++ "&&" ++ b) = a :: splitCompoundCommand b) ∧
    (∀ a b : String, (∀ c ∈ a.data, isPlainSegChar c = true) →
      splitCompoundCommand (a ++ "||" ++ b) = a :: splitCompoundCommand b) ∧
    (∀ a b : String, (∀ c ∈ a.data, isPlainSegChar c = true) →
      b.data.head? ≠ some '|' →
      splitCompoundCommand (a ++ "|" ++ b) = a :: splitCompoundCommand b) :=
  ⟨splitCC_single_quoted, splitCC_double_quoted, splitCC_semicolon,
    splitCC_andand, splitCC_oror, splitCC_pipe⟩

/-- Witness for C8: quoted operators do not split (with the other quote
kind appearing inside), while unquoted operators do split. -/
theorem c8_splitter_witness :
    splitCompoundCommand ("'" ++ "a && b; c\"d | e" ++ "'") =
      ["'" ++ "a && b; c\"d | e" ++ "'"] ∧
    splitCompoundCommand ("\"" ++ "a || b; c'd" ++ "\"") =
      ["\"" ++ "a || b; c'd" ++ "\""] ∧
    splitCompoundCommand ("ls" ++ ";" ++ " echo hi") =
      "ls" :: splitCompoundCommand " echo hi" ∧
    splitCompoundCommand ("ls" ++ "&&" ++ " echo hi") =
      "ls" :: splitCompoundCommand " echo hi" ∧
    splitCompoundCommand ("ls" ++ "||" ++ " echo hi") =
      "ls" :: splitCompoundCommand " echo hi" ∧
    splitCompoundCommand ("ls" ++ "|" ++ " wc -l") =
      "ls" :: splitCompoundCommand " wc -l" :=
  ⟨c8_splitter_quote_protection.1 "a && b; c\"d | e" (by decide),
   c8_splitter_quote_protection.2.1 "a || b; c'd" (by decide),
   c8_splitter_quote_protection.2.2.1 "ls" " echo hi" (by decide),
   c8_splitter_quote_protection.2.2.2.1 "ls" " echo hi" (by decide),
   c8_splitter_quote_protection.2.2.2.2.1 "ls" " echo hi" (by decide),
   c8_splitter_quote_protection.2.2.2.2.2 "ls" " wc -l" (by decide) (by decide)⟩

end YoloGuard
